import Mathlib

/-!
# Verification of the Timetable Trigger scheduling core

Shallow embedding of `nodes/Timetable/GenericFunctions.ts` and the private
scheduling methods of `nodes/Timetable/TimetableTrigger.node.ts`
(`getNextSlotHour`, `findNextValidDate`, `getNextRunTime`,
`shouldTriggerAtTime`, `shouldTriggerNow`) together with the tick handler of
`nodes/Timetable/TriggerExecution.ts` (`createExecuteTrigger`).

## Time model

JavaScript `Date` values are modelled by the number of milliseconds on the
host's local clock (`JSDate.t : Nat`), i.e. the UTC epoch instant plus the
host's fixed UTC offset.  This fixed-offset model has no DST transitions, so
`setDate(getDate() + k)` is adding `k * 86400000` ms and all component getters
(`getHours`, `getMinutes`, `getDay`) are plain arithmetic on the local clock
value.  Differences of `getTime()` values are offset-independent, so the
once-per-hour suppression arithmetic is unchanged by this localisation.
Epoch day 0 (1970-01-01) is a Thursday, so JS `getDay()` (0 = Sunday) is
`(day + 4) % 7`.

`randomInt(lo, hi)` from n8n-workflow draws an integer in `[lo, hi)`.  It is
modelled by an arbitrary function parameter `rand : Nat → Nat → Nat`; theorems
that depend on the draw being in range take the hypothesis `RandBounded rand`.
Functions that `throw` are modelled with `Except String`.
-/

deriving instance DecidableEq for Except

def msPerMinute : Nat := 60000
def msPerHour : Nat := 3600000
def msPerDay : Nat := 86400000

/-- A JS `Date`: milliseconds on the host's local clock (fixed-offset model). -/
structure JSDate where
  t : Nat
deriving DecidableEq, Repr

/-- JS `Date.prototype.getHours`. -/
def getHours (d : JSDate) : Nat := d.t / msPerHour % 24

/-- JS `Date.prototype.getMinutes`. -/
def getMinutes (d : JSDate) : Nat := d.t / msPerMinute % 60

/-- JS `Date.prototype.getDay` (0 = Sunday .. 6 = Saturday); epoch day 0 was a Thursday. -/
def getDay (d : JSDate) : Nat := (d.t / msPerDay + 4) % 7

/-- The local calendar-day index of a date (used to speak about "same day"). -/
def localDay (d : JSDate) : Nat := d.t / msPerDay

/-- `d.setDate(d.getDate() + k)`: same local time of day, `k` days later. -/
def addDays (k : Nat) (d : JSDate) : JSDate := ⟨d.t + k * msPerDay⟩

/-- `d.setHours(h, m, 0, 0)`: same local calendar day, clock set to `h:m:00.000`. -/
def setHours (d : JSDate) (h m : Nat) : JSDate :=
  ⟨d.t / msPerDay * msPerDay + h * msPerHour + m * msPerMinute⟩

/-- Day-of-week tokens of `SchedulerInterface.ts`. -/
inductive DayOfWeek where
  | ALL | MON | TUE | WED | THU | FRI | SAT | SUN
deriving DecidableEq, Repr

/-- Minute policy of an hour slot: `'random'` or a specific minute. -/
inductive MinuteSpec where
  | random
  | specific (m : Nat)
deriving DecidableEq, Repr

/-- `HourConfig` of `TimetableTrigger.node.ts` / `SchedulerInterface.ts`:
`{ hour: number; minute: number | 'random'; dayOfWeek?: DayOfWeek }`. -/
structure HourConfig where
  hour : Nat
  minute : MinuteSpec
  dayOfWeek : Option DayOfWeek
deriving DecidableEq, Repr

/-- `NextSlotResult` of `SchedulerInterface.ts`. -/
structure NextSlotResult where
  hour : Nat
  isTomorrow : Bool
deriving DecidableEq, Repr

/-- `NextRunTime` of `SchedulerInterface.ts`. -/
structure NextRunTime where
  date : JSDate
  candidate : JSDate
deriving DecidableEq, Repr

/-- `dayStringToNumber` of `GenericFunctions.ts` (`null` is `none`). -/
def dayStringToNumber (day : DayOfWeek) : Option Nat :=
  match day with
  | .SUN => some 0
  | .MON => some 1
  | .TUE => some 2
  | .WED => some 3
  | .THU => some 4
  | .FRI => some 5
  | .SAT => some 6
  | .ALL => none

/-- `matchesDay` of `GenericFunctions.ts`. -/
def matchesDay (date : JSDate) (dayOfWeek : Option DayOfWeek) : Bool :=
  match dayOfWeek with
  | none => true
  | some .ALL => true
  | some d =>
    match dayStringToNumber d with
    | none => false
    | some dayNumber => getDay date == dayNumber

/-- JS `Array.prototype.sort((a, b) => a - b)` on a list of hours. -/
def sortHours (l : List Nat) : List Nat := l.insertionSort (· ≤ ·)

/-- The `daysAhead` loop bound of the slot search: `for (daysAhead = 1; daysAhead <= 7; ...)`. -/
def daysAheadRange : List Nat := [1, 2, 3, 4, 5, 6, 7]

/-- The day-lookahead loop of `getNextSlotHour` (`TimetableTrigger.node.ts`):
for each `daysAhead` in order, if any slot matches the future day's weekday,
return the smallest such hour with `isTomorrow = (daysAhead == 1)`. -/
def findFutureSlot (now : JSDate) (hourConfigs : List HourConfig) :
    List Nat → Option NextSlotResult
  | [] => none
  | daysAhead :: rest =>
    let futureDate := addDays daysAhead now
    let futureDaySlots :=
      sortHours ((hourConfigs.filter (fun hc => matchesDay futureDate hc.dayOfWeek)).map
        (fun hc => hc.hour))
    match futureDaySlots with
    | [] => findFutureSlot now hourConfigs rest
    | hour :: _ => some ⟨hour, daysAhead == 1⟩

/-- `getNextSlotHour` (private method of `TimetableTrigger.node.ts`, identical to
the `hourConfigs` path of `GenericFunctions.ts`).  The `throw` of
`'No valid time slots configured'` is modelled as `Except.error`. -/
def getNextSlotHour (now : JSDate) (hourConfigs : List HourConfig) :
    Except String NextSlotResult :=
  let currentHour := getHours now
  let todaySlots :=
    sortHours ((hourConfigs.filter (fun hc => matchesDay now hc.dayOfWeek)).map
      (fun hc => hc.hour))
  match todaySlots.find? (fun hour => currentHour < hour) with
  | some hour => .ok ⟨hour, false⟩
  | none =>
    match findFutureSlot now hourConfigs daysAheadRange with
    | some r => .ok r
    | none =>
      match sortHours (hourConfigs.map (fun hc => hc.hour)) with
      | allHoursHead :: _ => .ok ⟨allHoursHead, true⟩
      | [] => .error "No valid time slots configured"

/-- The day-lookahead loop of `findNextValidDate`: first `daysAhead` in order
whose future date's weekday matches some relevant config. -/
def findFutureValidDate (now : JSDate) (relevantConfigs : List HourConfig) :
    List Nat → Option JSDate
  | [] => none
  | daysAhead :: rest =>
    let futureDate := addDays daysAhead now
    if relevantConfigs.any (fun hc => matchesDay futureDate hc.dayOfWeek) then some futureDate
    else findFutureValidDate now relevantConfigs rest

/-- `findNextValidDate` (private method of `TimetableTrigger.node.ts`). -/
def findNextValidDate (now : JSDate) (targetHour : Nat) (hourConfigs : List HourConfig) :
    JSDate :=
  let relevantConfigs := hourConfigs.filter (fun hc => hc.hour == targetHour)
  if relevantConfigs.any
      (fun hc => matchesDay now hc.dayOfWeek && decide (getHours now < targetHour)) then
    now
  else
    match findFutureValidDate now relevantConfigs daysAheadRange with
    | some d => d
    | none => addDays 1 now

/-- The minute resolution of `getNextRunTime` (`TimetableTrigger.node.ts`):
`hourConfigs.find(hc => hc.hour === hour)`, then `randomInt(0, 60)` for
`'random'`, the configured minute otherwise, defaulting to `0`. -/
def resolveMinute (rand : Nat → Nat → Nat) (hourConfigs : List HourConfig) (hour : Nat) :
    Nat :=
  match hourConfigs.find? (fun hc => hc.hour == hour) with
  | some hc =>
    match hc.minute with
    | .random => rand 0 60
    | .specific m => m
  | none => 0

/-- `getNextRunTime` (private method of `TimetableTrigger.node.ts`). -/
def getNextRunTime (rand : Nat → Nat → Nat) (now : JSDate) (hourConfigs : List HourConfig) :
    Except String NextRunTime :=
  match getNextSlotHour now hourConfigs with
  | .error e => .error e
  | .ok slot =>
    let minute := resolveMinute rand hourConfigs slot.hour
    let nextRun := findNextValidDate now slot.hour hourConfigs
    .ok ⟨now, setHours nextRun slot.hour minute⟩

/-- `60 * 60 * 1000` of `shouldTriggerAtTime`. -/
def oneHourMs : Int := 3600000

/-- `shouldTriggerAtTime` (private method of `TimetableTrigger.node.ts`,
identical to the `hourConfigs` path of `GenericFunctions.ts`).
`lastTriggerTime` is `number | undefined`; the JS guard `!lastTriggerTime`
is true for `undefined` and for `0` (the driver initialises the static data
to `0`, meaning "never fired"), hence the explicit `last == 0` branch.
`currentTime.getTime() - lastTrigger.getTime()` is computed in `Int`
because the last trigger may lie in the future of `currentTime`. -/
def shouldTriggerAtTime (currentTime : JSDate) (lastTriggerTime : Option Nat)
    (hourConfigs : List HourConfig) : Bool :=
  let currentHour := getHours currentTime
  let matchingConfigs := hourConfigs.filter
    (fun hc => hc.hour == currentHour && matchesDay currentTime hc.dayOfWeek)
  let hasValidSlot := matchingConfigs.length > 0
  if !hasValidSlot then false
  else
    match lastTriggerTime with
    | none => true
    | some last =>
      if last == 0 then true
      else
        let timeSinceLastTrigger : Int := (currentTime.t : Int) - (last : Int)
        if timeSinceLastTrigger < oneHourMs && getHours ⟨last⟩ == currentHour then false
        else true

/-- The hour of the UTC instant `u` read in a timezone of UTC offset `off`
milliseconds (the notion the spec uses for "the hour in the configured
timezone"). -/
def hourInZone (off u : Nat) : Nat := (u + off) / msPerHour % 24

set_option linter.unusedVariables false in
/-- `shouldTriggerNow` (both `GenericFunctions.ts` and the private method of
`TimetableTrigger.node.ts`): `const now = moment.tz(timezone).toDate()`.
`moment.tz(timezone)` represents the current UTC instant `u` in the zone of
offset `cfgOff`, but `.toDate()` returns a plain `Date` holding only the
instant, and every subsequent component getter reads it on the HOST's clock
(offset `hostOff`).  The configured offset `cfgOff` is therefore unused. -/
def shouldTriggerNow (hostOff cfgOff u : Nat) (lastTriggerTime : Option Nat)
    (hourConfigs : List HourConfig) : Bool :=
  shouldTriggerAtTime ⟨u + hostOff⟩ lastTriggerTime hourConfigs

/-! ## `GenericFunctions.ts` versions on `TimetableConfig`

`GenericFunctions.ts` operates on the dual-shape `TimetableConfig`
(`hourConfigs?: HourConfig[]` with `minuteMode: 'random' | 'specific'`,
plus the legacy `fixedHours` / `randomizeMinutes` / `minMinute` / `maxMinute`
fields).  The legacy path of `getNextSlotHour` converts `fixedHours` to hour
configs and calls itself again; the converted call is inlined here
(`getNextSlotHourAux` is the body shared by both paths). -/

namespace GF

/-- The `minuteMode` tag of the `GenericFunctions.ts` hour-config shape. -/
inductive MinuteMode where
  | random
  | specific
deriving DecidableEq, Repr

/-- The `HourConfig` shape used by `GenericFunctions.ts`
(`minuteMode` with an optional specific `minute`). -/
structure GHourConfig where
  hour : Nat
  minuteMode : MinuteMode
  minute : Option Nat
  dayOfWeek : Option DayOfWeek
deriving DecidableEq, Repr

/-- `TimetableConfig` (legacy `SchedulerInterface.ts` shape used by
`GenericFunctions.ts`).  `randomizeMinutes` is an optional boolean tested for
JS truthiness, modelled as a plain `Bool`. -/
structure TimetableConfig where
  hourConfigs : Option (List GHourConfig)
  fixedHours : Option (List Nat)
  randomizeMinutes : Bool
  minMinute : Option Nat
  maxMinute : Option Nat
deriving DecidableEq, Repr

/-- The day-lookahead loop of `GF.getNextSlotHour`, as in `findFutureSlot`. -/
def findFutureSlotG (now : JSDate) (hourConfigs : List GHourConfig) :
    List Nat → Option NextSlotResult
  | [] => none
  | daysAhead :: rest =>
    let futureDate := addDays daysAhead now
    let futureDaySlots :=
      sortHours ((hourConfigs.filter (fun hc => matchesDay futureDate hc.dayOfWeek)).map
        (fun hc => hc.hour))
    match futureDaySlots with
    | [] => findFutureSlotG now hourConfigs rest
    | hour :: _ => some ⟨hour, daysAhead == 1⟩

/-- Body of `GF.getNextSlotHour` on an hour-config list (the code after the
legacy conversion of `GenericFunctions.ts` lines 46-84). -/
def getNextSlotHourAux (now : JSDate) (hourConfigs : List GHourConfig) :
    Except String NextSlotResult :=
  let currentHour := getHours now
  let todaySlots :=
    sortHours ((hourConfigs.filter (fun hc => matchesDay now hc.dayOfWeek)).map
      (fun hc => hc.hour))
  match todaySlots.find? (fun hour => currentHour < hour) with
  | some hour => .ok ⟨hour, false⟩
  | none =>
    match findFutureSlotG now hourConfigs daysAheadRange with
    | some r => .ok r
    | none =>
      match sortHours (hourConfigs.map (fun hc => hc.hour)) with
      | allHoursHead :: _ => .ok ⟨allHoursHead, true⟩
      | [] => .error "No valid time slots configured"

/-- Legacy conversion of `GenericFunctions.ts` lines 37-44: each fixed hour
becomes `{ hour, minuteMode: 'random', dayOfWeek: 'ALL' }`. -/
def legacyConfigs (fixedHours : List Nat) : List GHourConfig :=
  fixedHours.map (fun hour => ⟨hour, .random, none, some .ALL⟩)

/-- `getNextSlotHour` of `GenericFunctions.ts` (lines 30-85).  If
`config.hourConfigs` is absent and `config.fixedHours` is present, the legacy
conversion applies; otherwise the body runs on `config.hourConfigs || []`. -/
def getNextSlotHour (now : JSDate) (config : TimetableConfig) :
    Except String NextSlotResult :=
  match config.hourConfigs, config.fixedHours with
  | none, some fixedHours => getNextSlotHourAux now (legacyConfigs fixedHours)
  | hcs, _ => getNextSlotHourAux now (hcs.getD [])

/-- The day-lookahead loop of `GF.findNextValidDate`. -/
def findFutureValidDateG (now : JSDate) (relevantConfigs : List GHourConfig) :
    List Nat → Option JSDate
  | [] => none
  | daysAhead :: rest =>
    let futureDate := addDays daysAhead now
    if relevantConfigs.any (fun hc => matchesDay futureDate hc.dayOfWeek) then some futureDate
    else findFutureValidDateG now relevantConfigs rest

/-- `findNextValidDate` of `GenericFunctions.ts` (lines 123-161), including the
legacy `fixedHours` branch (any day valid; tomorrow if today's hour passed). -/
def findNextValidDate (now : JSDate) (targetHour : Nat) (config : TimetableConfig) :
    JSDate :=
  match config.hourConfigs, config.fixedHours with
  | none, some _ =>
    if targetHour ≤ getHours now then addDays 1 now else now
  | hcs, _ =>
    let relevantConfigs := (hcs.getD []).filter (fun hc => hc.hour == targetHour)
    if relevantConfigs.any
        (fun hc => matchesDay now hc.dayOfWeek && decide (getHours now < targetHour)) then
      now
    else
      match findFutureValidDateG now relevantConfigs daysAheadRange with
      | some d => d
      | none => addDays 1 now

/-- The minute resolution of `GF.getNextRunTime` (`GenericFunctions.ts`
lines 90-110): per-hour configuration when `hourConfigs` is present, else the
legacy `randomizeMinutes` / `minMinute` / `maxMinute` path
(`randomInt(minMinute, maxMinute + 1)`). -/
def resolveMinute (rand : Nat → Nat → Nat) (config : TimetableConfig) (hour : Nat) : Nat :=
  match config.hourConfigs with
  | some hcs =>
    match hcs.find? (fun hc => hc.hour == hour) with
    | some hc =>
      match hc.minuteMode with
      | .specific => hc.minute.getD 0
      | .random => rand 0 60
    | none => 0
  | none =>
    if config.randomizeMinutes then rand (config.minMinute.getD 0) (config.maxMinute.getD 59 + 1)
    else 0

/-- `getNextRunTime` of `GenericFunctions.ts` (lines 87-120). -/
def getNextRunTime (rand : Nat → Nat → Nat) (now : JSDate) (config : TimetableConfig) :
    Except String NextRunTime :=
  match getNextSlotHour now config with
  | .error e => .error e
  | .ok slot =>
    let minute := resolveMinute rand config slot.hour
    let nextRun := findNextValidDate now slot.hour config
    .ok ⟨now, setHours nextRun slot.hour minute⟩

end GF

/-! ## The tick handler (`TriggerExecution.ts` / `createTriggerFunction`)

The function returned by `createExecuteTrigger` is run on every cron tick.
Its clock reads are passed as parameters: `decNow` (the `currentTime` /
`shouldTriggerNow` read at the top of the tick), `capNow` (the `Date.now()`
stored into `staticData.lastTriggerTime`), `outNow` (the `moment.tz` read used
to build the output record).  Emissions and log lines are returned as lists;
the `try { ... } catch { logger.error(...) }` wrappers around the diagnostic
and output-building `getNextRunTime` calls become matches on its
`Except` result. -/

/-- `StaticData` of `SchedulerInterface.ts`. -/
structure StaticData where
  lastTriggerTime : Option Nat
deriving DecidableEq, Repr

/-- One item passed to `emitCallback`: the regular result record (reduced to
its timestamp and next-scheduled instant) or the fallback record carrying the
explanatory `error` field. -/
inductive Emission where
  | normal (timestamp : Nat) (nextScheduled : Nat)
  | fallback (error : String)
deriving DecidableEq, Repr

/-- The `error` field of the fallback record (`TriggerExecution.ts` line 57). -/
def fallbackErrorField : String :=
  "Failed to compute next run time - workflow executed with fallback data"

/-- The log line of the skip branch's catch (`TriggerExecution.ts` line 36). -/
def skipErrorLog (e : String) : String :=
  "Error computing next run time for skip: " ++ e

/-- The log line of the output branch's catch (`TriggerExecution.ts` line 50). -/
def outputErrorLog (e : String) : String :=
  "Error creating workflow output: " ++ e

/-- Result of one tick: the static data after the tick, the emissions, and the
log lines relevant to the claims. -/
structure TickResult where
  staticData : StaticData
  emissions : List Emission
  logs : List String
deriving DecidableEq, Repr

/-- One run of the function built by `createExecuteTrigger`
(`TriggerExecution.ts` lines 20-64; `createTriggerFunction` of
`TimetableTrigger.node.ts` lines 457-501 is the same logic). -/
def executeTriggerTick (rand : Nat → Nat → Nat) (hourConfigs : List HourConfig)
    (staticData : StaticData) (decNow capNow outNow : Nat) : TickResult :=
  let shouldTrigger := shouldTriggerAtTime ⟨decNow⟩ staticData.lastTriggerTime hourConfigs
  if !shouldTrigger then
    match getNextRunTime rand ⟨decNow⟩ hourConfigs with
    | .ok _ => ⟨staticData, [], ["Not triggering."]⟩
    | .error e => ⟨staticData, [], [skipErrorLog e]⟩
  else
    let staticData2 : StaticData := ⟨some capNow⟩
    match getNextRunTime rand ⟨outNow⟩ hourConfigs with
    | .ok nextRun =>
      ⟨staticData2, [Emission.normal outNow nextRun.candidate.t], ["TRIGGERING WORKFLOW"]⟩
    | .error e =>
      ⟨staticData2, [Emission.fallback fallbackErrorField], [outputErrorLog e]⟩

/-! ## Spec-side definitions

These definitions follow the WORDS of the specification (spec.md section 4.1
step 2-4 and section 4.2), for comparison with the code-derived definitions
above. -/

/-- The smallest element of a list of hours (spec: "sort ascending, return the
smallest"). -/
def listMin : List Nat → Option Nat
  | [] => none
  | x :: rest =>
    match listMin rest with
    | none => some x
    | some m => some (Nat.min x m)

/-- The smallest element strictly greater than `c` (spec: "the smallest hour
strictly greater than now's current hour"). -/
def listMinGt (c : Nat) : List Nat → Option Nat
  | [] => none
  | x :: rest =>
    if c < x then
      match listMinGt c rest with
      | none => some x
      | some m => some (Nat.min x m)
    else listMinGt c rest

/-- Spec section 4.1 step 3: "scan forward day-by-day for up to 7 days; for
each future day, filter slots matching that day's weekday, sort remaining
hours ascending, and if any exist return the smallest, with
`isTomorrow = (daysAhead == 1)`". -/
def specFutureScan (now : JSDate) (slots : List HourConfig) :
    List Nat → Option NextSlotResult
  | [] => none
  | daysAhead :: rest =>
    let dayHours :=
      (slots.filter (fun hc => matchesDay (addDays daysAhead now) hc.dayOfWeek)).map
        (fun hc => hc.hour)
    match listMin dayHours with
    | some h => some ⟨h, daysAhead == 1⟩
    | none => specFutureScan now slots rest

/-- `findNextSlot` as worded by the spec (section 4.1 steps 1-5): smallest
same-day hour strictly after now, else the 7-day scan, else the globally
smallest configured hour with `isTomorrow = true`, and the empty-collection
failure. -/
def specNextSlot (now : JSDate) (slots : List HourConfig) :
    Except String NextSlotResult :=
  let todayHours :=
    (slots.filter (fun hc => matchesDay now hc.dayOfWeek)).map (fun hc => hc.hour)
  match listMinGt (getHours now) todayHours with
  | some h => .ok ⟨h, false⟩
  | none =>
    match specFutureScan now slots daysAheadRange with
    | some r => .ok r
    | none =>
      match listMin (slots.map (fun hc => hc.hour)) with
      | some h => .ok ⟨h, true⟩
      | none => .error "No valid time slots configured"

/-- `shouldTrigger` as worded by the spec (section 4.2 steps 1-4).  The spec's
"lastFiredAt absent" is represented in the code by `undefined` OR `0` (the
driver initialises `staticData.lastTriggerTime` to `0`, meaning "no prior
trigger"), so "absent" here is `none` or `some 0`. -/
def specShouldTrigger (now : JSDate) (lastFiredAt : Option Nat)
    (slots : List HourConfig) : Bool :=
  if ¬ ∃ hc ∈ slots, hc.hour = getHours now ∧ matchesDay now hc.dayOfWeek = true then
    false
  else if lastFiredAt = none ∨ lastFiredAt = some 0 then
    true
  else
    match lastFiredAt with
    | none => true
    | some last =>
      if (now.t : Int) - (last : Int) < oneHourMs ∧ getHours ⟨last⟩ = getHours now then false
      else true

/-! ## Validity and randomness hypotheses -/

/-- `randomInt(lo, hi)` draws in `[lo, hi)`. -/
def RandBounded (rand : Nat → Nat → Nat) : Prop :=
  ∀ lo hi, lo < hi → lo ≤ rand lo hi ∧ rand lo hi < hi

/-- The specific minute carried by a minute policy (`0` for `'random'`,
whose draws are bounded separately). -/
def specificMinute (ms : MinuteSpec) : Nat :=
  match ms with
  | .random => 0
  | .specific m => m

/-- A valid hour-config list as enforced by configuration validation
(`SchedulerInterface.ts` codecs / `normalProcessing` checks): hours in
`[0, 23]`, specific minutes in `[0, 59]`. -/
def ValidHourConfigs (hourConfigs : List HourConfig) : Prop :=
  ∀ hc ∈ hourConfigs, hc.hour ≤ 23 ∧ specificMinute hc.minute ≤ 59

instance : DecidablePred ValidHourConfigs := fun hcs =>
  List.decidableBAll _ hcs

/-- A valid `TimetableConfig`: hours in `[0, 23]`, specific minutes in
`[0, 59]`, and legacy minute bounds forming a sub-range of `[0, 59]`. -/
def ValidTimetableConfig (config : GF.TimetableConfig) : Prop :=
  (∀ hc ∈ config.hourConfigs.getD [], hc.hour ≤ 23 ∧ hc.minute.getD 0 ≤ 59) ∧
  (∀ h ∈ config.fixedHours.getD [], h ≤ 23) ∧
  config.minMinute.getD 0 ≤ config.maxMinute.getD 59 ∧
  config.maxMinute.getD 59 ≤ 59

instance : DecidablePred ValidTimetableConfig := fun config => by
  unfold ValidTimetableConfig
  infer_instance

/-- Projection of the `GenericFunctions.ts` hour-config shape onto the fields
the slot search reads (the minute policy is irrelevant there). -/
def gToHourConfig (g : GF.GHourConfig) : HourConfig := ⟨g.hour, .random, g.dayOfWeek⟩

/-- A random generator that always returns the lower bound. -/
def constRand : Nat → Nat → Nat := fun lo _ => lo

/-- A random generator that always returns the upper bound. -/
def hiRand : Nat → Nat → Nat := fun _ hi => hi - 1

/-- Concrete configuration used by the C6 witness. -/
def w6config : GF.TimetableConfig :=
  ⟨some [⟨12, GF.MinuteMode.specific, some 30, some DayOfWeek.ALL⟩], none, false, none, none⟩

/-- Concrete configuration used by the C8 witness. -/
def w8config : GF.TimetableConfig :=
  ⟨some [⟨12, GF.MinuteMode.random, none, some DayOfWeek.ALL⟩], none, false, none, none⟩

/-- Concrete slot list used by the C10 witness. -/
def w10configs : List HourConfig := [⟨12, MinuteSpec.specific 15, some DayOfWeek.ALL⟩]

/-! ## Sorting lemmas

The JS code sorts hour lists ascending and takes the first element with a
property; the spec speaks of "the smallest hour".  These lemmas connect the
two readings. -/

theorem find_gt_orderedInsert (c x : Nat) :
    ∀ (s : List Nat), List.Sorted (· ≤ ·) s →
      (List.orderedInsert (· ≤ ·) x s).find? (fun h => c < h) =
        if c < x then
          match s.find? (fun h => c < h) with
          | none => some x
          | some m => some (Nat.min x m)
        else s.find? (fun h => c < h) := by
  intro s
  induction s with
  | nil =>
    intro _
    by_cases hcx : c < x <;> simp [List.orderedInsert, List.find?, hcx]
  | cons y t ih =>
    intro hs
    show (if x ≤ y then x :: y :: t else y :: List.orderedInsert (· ≤ ·) x t).find?
        (fun h => decide (c < h)) = _
    by_cases hxy : x ≤ y
    · simp only [if_pos hxy]
      by_cases hcx : c < x
      · rw [List.find?_cons_of_pos _ (by simpa using hcx)]
        cases hf : (y :: t).find? (fun h => decide (c < h)) with
        | none => simp [hcx]
        | some m =>
          have hm : m ∈ y :: t := List.mem_of_find?_eq_some hf
          have hym : x ≤ m := by
            rcases List.mem_cons.mp hm with h | h
            · exact h ▸ hxy
            · exact le_trans hxy (List.rel_of_sorted_cons hs m h)
          simp [hcx, hf, Nat.min_eq_left hym]
      · rw [List.find?_cons_of_neg _ (by simpa using hcx)]
        simp [hcx]
    · simp only [if_neg hxy]
      have hyx : y ≤ x := le_of_not_le hxy
      by_cases hcy : c < y
      · rw [List.find?_cons_of_pos _ (by simpa using hcy)]
        have hcx : c < x := lt_of_lt_of_le hcy hyx
        rw [List.find?_cons_of_pos _ (by simpa using hcy)]
        simp [hcx, Nat.min_eq_right hyx]
      · rw [List.find?_cons_of_neg _ (by simpa using hcy)]
        rw [List.find?_cons_of_neg _ (by simpa using hcy)]
        exact ih hs.of_cons

theorem sortHours_find_gt (c : Nat) (l : List Nat) :
    (sortHours l).find? (fun h => c < h) = listMinGt c l := by
  induction l with
  | nil => rfl
  | cons x t ih =>
    have : sortHours (x :: t) = List.orderedInsert (· ≤ ·) x (sortHours t) := rfl
    rw [sortHours, List.insertionSort]
    rw [find_gt_orderedInsert c x _ (List.sorted_insertionSort _ t)]
    show (if c < x then _ else _) = listMinGt c (x :: t)
    rw [listMinGt]
    by_cases hcx : c < x
    · simp only [if_pos hcx]
      rw [← sortHours, ih]
    · simp only [if_neg hcx]
      rw [← sortHours, ih]

theorem head?_orderedInsert (x : Nat) (s : List Nat) :
    (List.orderedInsert (· ≤ ·) x s).head? =
      match s.head? with
      | none => some x
      | some y => some (Nat.min x y) := by
  cases s with
  | nil => rfl
  | cons y t =>
    show (if x ≤ y then x :: y :: t else y :: List.orderedInsert (· ≤ ·) x t).head? = _
    by_cases h : x ≤ y
    · simp [h, Nat.min_eq_left h]
    · simp [h, Nat.min_eq_right (le_of_not_le h)]

theorem sortHours_head? (l : List Nat) : (sortHours l).head? = listMin l := by
  induction l with
  | nil => rfl
  | cons x t ih =>
    rw [sortHours, List.insertionSort, head?_orderedInsert, listMin]
    rw [← sortHours, ih]

theorem sortHours_eq_nil_iff (l : List Nat) : sortHours l = [] ↔ l = [] := by
  constructor
  · intro h
    have := List.length_insertionSort (· ≤ ·) l
    rw [sortHours] at h
    rw [h] at this
    exact List.eq_nil_of_length_eq_zero this.symm
  · intro h
    rw [h]
    rfl

theorem mem_sortHours {x : Nat} {l : List Nat} : x ∈ sortHours l ↔ x ∈ l := by
  rw [sortHours]
  exact List.mem_insertionSort (· ≤ ·)

theorem findFutureSlot_eq_specFutureScan (now : JSDate) (hcs : List HourConfig) :
    ∀ days, findFutureSlot now hcs days = specFutureScan now hcs days := by
  intro days
  induction days with
  | nil => rfl
  | cons k rest ih =>
    show (match sortHours ((hcs.filter
            (fun hc => matchesDay (addDays k now) hc.dayOfWeek)).map (fun hc => hc.hour)) with
          | [] => findFutureSlot now hcs rest
          | hour :: _ => some ⟨hour, k == 1⟩) = _
    cases hl : sortHours ((hcs.filter
        (fun hc => matchesDay (addDays k now) hc.dayOfWeek)).map (fun hc => hc.hour)) with
    | nil =>
      have hm : listMin ((hcs.filter
          (fun hc => matchesDay (addDays k now) hc.dayOfWeek)).map (fun hc => hc.hour)) = none := by
        rw [← sortHours_head?, hl]; rfl
      show findFutureSlot now hcs rest = specFutureScan now hcs (k :: rest)
      rw [ih, specFutureScan, hm]
    | cons h tl =>
      have hm : listMin ((hcs.filter
          (fun hc => matchesDay (addDays k now) hc.dayOfWeek)).map (fun hc => hc.hour))
          = some h := by
        rw [← sortHours_head?, hl]; rfl
      show some (⟨h, k == 1⟩ : NextSlotResult) = specFutureScan now hcs (k :: rest)
      rw [specFutureScan, hm]

theorem getNextSlotHour_eq_specNextSlot (now : JSDate) (hcs : List HourConfig) :
    getNextSlotHour now hcs = specNextSlot now hcs := by
  show (match (sortHours ((hcs.filter (fun hc : HourConfig => matchesDay now hc.dayOfWeek)).map
          (fun hc : HourConfig => hc.hour))).find? (fun hour => getHours now < hour) with
        | some hour => Except.ok (⟨hour, false⟩ : NextSlotResult)
        | none =>
          match findFutureSlot now hcs daysAheadRange with
          | some r => Except.ok r
          | none =>
            match sortHours (hcs.map (fun hc : HourConfig => hc.hour)) with
            | allHoursHead :: _ => Except.ok (⟨allHoursHead, true⟩ : NextSlotResult)
            | [] => Except.error "No valid time slots configured") = _
  rw [sortHours_find_gt, findFutureSlot_eq_specFutureScan]
  cases h1 : listMinGt (getHours now)
      ((hcs.filter (fun hc => matchesDay now hc.dayOfWeek)).map (fun hc => hc.hour)) with
  | some hour =>
    show _ = specNextSlot now hcs
    rw [specNextSlot, h1]
  | none =>
    cases h2 : specFutureScan now hcs daysAheadRange with
    | some r =>
      show Except.ok r = specNextSlot now hcs
      rw [specNextSlot, h1, h2]
    | none =>
      cases h3 : sortHours (hcs.map (fun hc => hc.hour)) with
      | nil =>
        have hm : listMin (hcs.map (fun hc => hc.hour)) = none := by
          rw [← sortHours_head?, h3]; rfl
        show Except.error "No valid time slots configured" = specNextSlot now hcs
        rw [specNextSlot, h1, h2, hm]
      | cons h tl =>
        have hm : listMin (hcs.map (fun hc => hc.hour)) = some h := by
          rw [← sortHours_head?, h3]; rfl
        show Except.ok (⟨h, true⟩ : NextSlotResult) = specNextSlot now hcs
        rw [specNextSlot, h1, h2, hm]

theorem listMin_eq_none_iff (l : List Nat) : listMin l = none ↔ l = [] := by
  cases l with
  | nil => simp [listMin]
  | cons x t =>
    constructor
    · intro h
      rw [listMin] at h
      cases hm : listMin t <;> simp [hm] at h
    · intro h
      exact absurd h (List.cons_ne_nil x t)

theorem listMin_mem {l : List Nat} : ∀ {m : Nat}, listMin l = some m → m ∈ l := by
  induction l with
  | nil =>
    intro m h
    simp [listMin] at h
  | cons x t ih =>
    intro m h
    rw [listMin] at h
    cases hm : listMin t with
    | none =>
      rw [hm] at h
      have : m = x := by simpa using h.symm
      simp [this]
    | some mt =>
      rw [hm] at h
      have hmin : m = Nat.min x mt := by simpa using h.symm
      rw [show Nat.min x mt = if x ≤ mt then x else mt from rfl] at hmin
      by_cases hle : x ≤ mt
      · rw [if_pos hle] at hmin
        simp [hmin]
      · rw [if_neg hle] at hmin
        rw [hmin]
        exact List.mem_cons_of_mem x (ih hm)

theorem listMinGt_mem {c : Nat} {l : List Nat} :
    ∀ {m : Nat}, listMinGt c l = some m → m ∈ l ∧ c < m := by
  induction l with
  | nil =>
    intro m h
    simp [listMinGt] at h
  | cons x t ih =>
    intro m h
    rw [listMinGt] at h
    by_cases hcx : c < x
    · rw [if_pos hcx] at h
      cases hm : listMinGt c t with
      | none =>
        rw [hm] at h
        have : m = x := by simpa using h.symm
        simp [this, hcx]
      | some mt =>
        rw [hm] at h
        have hmin : m = Nat.min x mt := by simpa using h.symm
        rw [show Nat.min x mt = if x ≤ mt then x else mt from rfl] at hmin
        by_cases hle : x ≤ mt
        · rw [if_pos hle] at hmin
          rw [hmin]
          exact ⟨List.mem_cons_self x t, hcx⟩
        · rw [if_neg hle] at hmin
          rw [hmin]
          have hrec := ih hm
          exact ⟨List.mem_cons_of_mem x hrec.1, hrec.2⟩
    · rw [if_neg hcx] at h
      have := ih h
      exact ⟨List.mem_cons_of_mem x this.1, this.2⟩

theorem listMinGt_eq_none_iff {c : Nat} {l : List Nat} :
    listMinGt c l = none ↔ ∀ x ∈ l, ¬ c < x := by
  induction l with
  | nil => simp [listMinGt]
  | cons x t ih =>
    rw [listMinGt]
    by_cases hcx : c < x
    · rw [if_pos hcx]
      constructor
      · intro h
        cases hm : listMinGt c t <;> simp [hm] at h
      · intro h
        exact absurd hcx (h x (List.mem_cons_self x t))
    · rw [if_neg hcx]
      rw [ih]
      constructor
      · intro h y hy
        rcases List.mem_cons.mp hy with rfl | hyt
        · exact hcx
        · exact h y hyt
      · intro h y hy
        exact h y (List.mem_cons_of_mem x hy)

theorem addDays_zero (d : JSDate) : addDays 0 d = d := rfl

theorem getDay_addDays (k : Nat) (d : JSDate) :
    getDay (addDays k d) = (getDay d + k) % 7 := by
  show (( (d.t + k * msPerDay) / msPerDay + 4) % 7) = _
  rw [Nat.add_mul_div_right _ _ (by decide : 0 < msPerDay)]
  unfold getDay
  generalize d.t / msPerDay = a
  omega

theorem getDay_lt (d : JSDate) : getDay d < 7 := Nat.mod_lt _ (by norm_num)

theorem exists_shift_mod (w n : Nat) (hw : w < 7) (hn : n < 7) :
    ∃ k, k ∈ daysAheadRange ∧ (w + k) % 7 = n := by
  refine ⟨if w < n then n - w else n + 7 - w, ?_, ?_⟩
  · unfold daysAheadRange
    by_cases h : w < n <;> simp [h, List.mem_cons] <;> omega
  · by_cases h : w < n <;> simp [h] <;> omega

theorem matchesDay_exists_specific (now : JSDate) (d : DayOfWeek) (n : Nat) (hn : n < 7)
    (hd : dayStringToNumber d = some n) :
    ∃ k ∈ daysAheadRange, matchesDay (addDays k now) (some d) = true := by
  obtain ⟨k, hk, hmod⟩ := exists_shift_mod (getDay now) n (getDay_lt now) hn
  refine ⟨k, hk, ?_⟩
  have hday : matchesDay (addDays k now) (some d) = (getDay (addDays k now) == n) := by
    cases d <;> simp_all [matchesDay, dayStringToNumber]
  rw [hday, getDay_addDays, hmod]
  simp

theorem matchesDay_exists (now : JSDate) (dow : Option DayOfWeek) :
    ∃ k ∈ daysAheadRange, matchesDay (addDays k now) dow = true := by
  have h1 : (1 : Nat) ∈ daysAheadRange := by unfold daysAheadRange; simp
  cases dow with
  | none => exact ⟨1, h1, rfl⟩
  | some d =>
    cases d with
    | ALL => exact ⟨1, h1, rfl⟩
    | SUN => exact matchesDay_exists_specific now _ 0 (by norm_num) rfl
    | MON => exact matchesDay_exists_specific now _ 1 (by norm_num) rfl
    | TUE => exact matchesDay_exists_specific now _ 2 (by norm_num) rfl
    | WED => exact matchesDay_exists_specific now _ 3 (by norm_num) rfl
    | THU => exact matchesDay_exists_specific now _ 4 (by norm_num) rfl
    | FRI => exact matchesDay_exists_specific now _ 5 (by norm_num) rfl
    | SAT => exact matchesDay_exists_specific now _ 6 (by norm_num) rfl

theorem mem_map_hour_of_filter {x : Nat} {p : HourConfig → Bool} {l : List HourConfig}
    (h : x ∈ (l.filter p).map (fun hc => hc.hour)) : x ∈ l.map (fun hc => hc.hour) := by
  obtain ⟨hc, hmem, rfl⟩ := List.mem_map.mp h
  exact List.mem_map.mpr ⟨hc, (List.mem_filter.mp hmem).1, rfl⟩

theorem specFutureScan_mem {now : JSDate} {slots : List HourConfig} :
    ∀ {days : List Nat} {r : NextSlotResult}, specFutureScan now slots days = some r →
      ∃ k ∈ days, r.hour ∈ (slots.filter
        (fun hc => matchesDay (addDays k now) hc.dayOfWeek)).map (fun hc => hc.hour) := by
  intro days
  induction days with
  | nil =>
    intro r h
    simp [specFutureScan] at h
  | cons k rest ih =>
    intro r h
    rw [specFutureScan] at h
    cases hm : listMin ((slots.filter
        (fun hc => matchesDay (addDays k now) hc.dayOfWeek)).map (fun hc => hc.hour)) with
    | some h0 =>
      rw [hm] at h
      have hr : r = ⟨h0, k == 1⟩ := by simpa using h.symm
      refine ⟨k, List.mem_cons_self k rest, ?_⟩
      rw [hr]
      exact listMin_mem hm
    | none =>
      rw [hm] at h
      obtain ⟨k2, hk2, hmem⟩ := ih h
      exact ⟨k2, List.mem_cons_of_mem k hk2, hmem⟩

theorem specFutureScan_isSome {now : JSDate} {slots : List HourConfig} :
    ∀ {days : List Nat},
      (∃ k ∈ days, ∃ hc ∈ slots, matchesDay (addDays k now) hc.dayOfWeek = true) →
      (specFutureScan now slots days).isSome = true := by
  intro days
  induction days with
  | nil =>
    rintro ⟨k, hk, _⟩
    simp at hk
  | cons k0 rest ih =>
    rintro ⟨k, hk, hc, hmem, hmatch⟩
    rw [specFutureScan]
    cases hm : listMin ((slots.filter
        (fun hc => matchesDay (addDays k0 now) hc.dayOfWeek)).map (fun hc => hc.hour)) with
    | some h0 => simp
    | none =>
      have hnil := (listMin_eq_none_iff _).mp hm
      rcases List.mem_cons.mp hk with rfl | hkrest
      · exfalso
        have hmm : hc.hour ∈ (slots.filter
            (fun x => matchesDay (addDays k now) x.dayOfWeek)).map (fun x => x.hour) :=
          List.mem_map.mpr ⟨hc, List.mem_filter.mpr ⟨hmem, hmatch⟩, rfl⟩
        rw [hnil] at hmm
        simp at hmm
      · exact ih ⟨k, hkrest, hc, hmem, hmatch⟩

theorem specNextSlot_hour_mem {now : JSDate} {slots : List HourConfig} {r : NextSlotResult}
    (h : specNextSlot now slots = .ok r) : r.hour ∈ slots.map (fun hc => hc.hour) := by
  rw [specNextSlot] at h
  cases h1 : listMinGt (getHours now)
      ((slots.filter (fun hc => matchesDay now hc.dayOfWeek)).map (fun hc => hc.hour)) with
  | some h0 =>
    rw [h1] at h
    have hr : r = ⟨h0, false⟩ := by simpa using (Except.ok.inj h).symm
    rw [hr]
    exact mem_map_hour_of_filter (listMinGt_mem h1).1
  | none =>
    rw [h1] at h
    cases h2 : specFutureScan now slots daysAheadRange with
    | some r0 =>
      rw [h2] at h
      have hr : r = r0 := by simpa using (Except.ok.inj h).symm
      obtain ⟨k, _, hmem⟩ := specFutureScan_mem h2
      rw [hr]
      exact mem_map_hour_of_filter hmem
    | none =>
      rw [h2] at h
      cases h3 : listMin (slots.map (fun hc => hc.hour)) with
      | some h0 =>
        rw [h3] at h
        have hr : r = ⟨h0, true⟩ := by simpa using (Except.ok.inj h).symm
        rw [hr]
        exact listMin_mem h3
      | none =>
        rw [h3] at h
        exact absurd h (by simp)

theorem specNextSlot_sound (now : JSDate) (slots : List HourConfig) (hne : slots ≠ []) :
    ∃ r, specNextSlot now slots = .ok r ∧
      (∃ k, (k = 0 ∨ k ∈ daysAheadRange) ∧
        r.hour ∈ (slots.filter (fun hc => matchesDay (addDays k now) hc.dayOfWeek)).map
          (fun hc => hc.hour)) ∧
      ((∃ hc ∈ slots, matchesDay now hc.dayOfWeek = true ∧ getHours now < hc.hour) →
        r.isTomorrow = false) := by
  cases h1 : listMinGt (getHours now)
      ((slots.filter (fun hc => matchesDay now hc.dayOfWeek)).map (fun hc => hc.hour)) with
  | some h0 =>
    refine ⟨⟨h0, false⟩, ?_, ?_, fun _ => rfl⟩
    · rw [specNextSlot, h1]
    · refine ⟨0, Or.inl rfl, ?_⟩
      rw [addDays_zero]
      exact (listMinGt_mem h1).1
  | none =>
    have hnotoday : ¬ ∃ hc ∈ slots, matchesDay now hc.dayOfWeek = true ∧
        getHours now < hc.hour := by
      rintro ⟨hc, hmem, hmatch, hlt⟩
      have hin : hc.hour ∈ (slots.filter (fun hc => matchesDay now hc.dayOfWeek)).map
          (fun hc => hc.hour) :=
        List.mem_map.mpr ⟨hc, List.mem_filter.mpr ⟨hmem, hmatch⟩, rfl⟩
      exact listMinGt_eq_none_iff.mp h1 hc.hour hin hlt
    cases h2 : specFutureScan now slots daysAheadRange with
    | some r0 =>
      obtain ⟨k, hk, hmem⟩ := specFutureScan_mem h2
      refine ⟨r0, ?_, ⟨k, Or.inr hk, hmem⟩, fun hex => absurd hex hnotoday⟩
      rw [specNextSlot, h1, h2]
    | none =>
      exfalso
      obtain ⟨hc0, hmem0⟩ := List.exists_mem_of_ne_nil slots hne
      obtain ⟨k, hk, hmatch⟩ := matchesDay_exists now hc0.dayOfWeek
      have hsome := specFutureScan_isSome ⟨k, hk, hc0, hmem0, hmatch⟩
      rw [h2] at hsome
      simp at hsome

theorem getNextSlotHour_hour_mem {now : JSDate} {slots : List HourConfig}
    {r : NextSlotResult} (h : getNextSlotHour now slots = .ok r) :
    r.hour ∈ slots.map (fun hc => hc.hour) := by
  rw [getNextSlotHour_eq_specNextSlot] at h
  exact specNextSlot_hour_mem h

theorem getNextSlotHour_sound (now : JSDate) (slots : List HourConfig) (hne : slots ≠ []) :
    ∃ r, getNextSlotHour now slots = .ok r ∧
      (∃ k, (k = 0 ∨ k ∈ daysAheadRange) ∧
        r.hour ∈ (slots.filter (fun hc => matchesDay (addDays k now) hc.dayOfWeek)).map
          (fun hc => hc.hour)) ∧
      ((∃ hc ∈ slots, matchesDay now hc.dayOfWeek = true ∧ getHours now < hc.hour) →
        r.isTomorrow = false) := by
  rw [getNextSlotHour_eq_specNextSlot]
  exact specNextSlot_sound now slots hne

theorem getNextSlotHour_nil (now : JSDate) :
    getNextSlotHour now [] = .error "No valid time slots configured" := rfl

theorem getNextSlotHour_isOk (now : JSDate) (hcs : List HourConfig) :
    (getNextSlotHour now hcs).isOk = !hcs.isEmpty := by
  cases hcs with
  | nil => rfl
  | cons hc rest =>
    obtain ⟨r, hok, _, _⟩ := getNextSlotHour_sound now (hc :: rest) (List.cons_ne_nil hc rest)
    rw [hok]
    rfl

theorem localDay_setHours (d : JSDate) {h m : Nat} (hh : h ≤ 23) (hm : m ≤ 59) :
    localDay (setHours d h m) = localDay d := by
  unfold localDay setHours msPerDay msPerHour msPerMinute
  dsimp only
  omega

theorem getHours_setHours (d : JSDate) {h m : Nat} (hh : h ≤ 23) (hm : m ≤ 59) :
    getHours (setHours d h m) = h := by
  unfold getHours setHours msPerDay msPerHour msPerMinute
  dsimp only
  omega

theorem getMinutes_setHours (d : JSDate) {h m : Nat} (hm : m ≤ 59) :
    getMinutes (setHours d h m) = m := by
  unfold getMinutes setHours msPerDay msPerHour msPerMinute
  dsimp only
  omega

theorem setHours_mod_minute (d : JSDate) (h m : Nat) :
    (setHours d h m).t % msPerMinute = 0 := by
  unfold setHours msPerDay msPerHour msPerMinute
  dsimp only
  omega

theorem localDay_addDays (k : Nat) (d : JSDate) : localDay (addDays k d) = localDay d + k := by
  unfold localDay addDays msPerDay
  dsimp only
  omega

theorem t_lt_setHours_same_day (d : JSDate) {h : Nat} (hlt : getHours d < h) (m : Nat) :
    d.t < (setHours d h m).t := by
  unfold getHours setHours msPerDay msPerHour msPerMinute at *
  dsimp only at *
  omega

theorem t_lt_setHours_future (d : JSDate) {k : Nat} (hk : 1 ≤ k) (h m : Nat) :
    d.t < (setHours (addDays k d) h m).t := by
  unfold setHours addDays msPerDay msPerHour msPerMinute at *
  dsimp only at *
  omega

theorem mem_daysAheadRange_ge_one {k : Nat} (hk : k ∈ daysAheadRange) : 1 ≤ k := by
  unfold daysAheadRange at hk
  simp only [List.mem_cons, List.not_mem_nil, or_false] at hk
  rcases hk with h | h | h | h | h | h | h <;> omega

theorem findFutureValidDate_mem {now : JSDate} {relevantConfigs : List HourConfig} :
    ∀ {days : List Nat} {d : JSDate},
      findFutureValidDate now relevantConfigs days = some d →
      ∃ k ∈ days, d = addDays k now := by
  intro days
  induction days with
  | nil =>
    intro d h
    simp [findFutureValidDate] at h
  | cons k0 rest ih =>
    intro d h
    rw [findFutureValidDate] at h
    by_cases hany : relevantConfigs.any (fun hc => matchesDay (addDays k0 now) hc.dayOfWeek)
    · rw [if_pos hany] at h
      exact ⟨k0, List.mem_cons_self k0 rest, (Option.some.inj h).symm⟩
    · rw [if_neg hany] at h
      obtain ⟨k, hk, heq⟩ := ih h
      exact ⟨k, List.mem_cons_of_mem k0 hk, heq⟩

theorem findNextValidDate_cases (now : JSDate) (targetHour : Nat) (hcs : List HourConfig) :
    (findNextValidDate now targetHour hcs = now ∧ getHours now < targetHour) ∨
    (∃ k, 1 ≤ k ∧ findNextValidDate now targetHour hcs = addDays k now) := by
  unfold findNextValidDate
  by_cases hany : (hcs.filter (fun hc => hc.hour == targetHour)).any
      (fun hc => matchesDay now hc.dayOfWeek && decide (getHours now < targetHour)) = true
  · left
    obtain ⟨hc, _, hcond⟩ := List.any_eq_true.mp hany
    rw [Bool.and_eq_true] at hcond
    exact ⟨by simp [hany], of_decide_eq_true hcond.2⟩
  · right
    rw [if_neg (by simpa using hany)]
    cases hf : findFutureValidDate now (hcs.filter (fun hc => hc.hour == targetHour))
        daysAheadRange with
    | some d2 =>
      obtain ⟨k, hk, heq⟩ := findFutureValidDate_mem hf
      exact ⟨k, mem_daysAheadRange_ge_one hk, heq⟩
    | none => exact ⟨1, le_refl 1, rfl⟩

theorem resolveMinute_le {rand : Nat → Nat → Nat} (hrand : RandBounded rand)
    {hcs : List HourConfig} (hval : ValidHourConfigs hcs) (hour : Nat) :
    resolveMinute rand hcs hour ≤ 59 := by
  unfold resolveMinute
  cases hf : hcs.find? (fun hc => hc.hour == hour) with
  | none => norm_num
  | some hc =>
    have hv := hval hc (List.mem_of_find?_eq_some hf)
    dsimp only
    cases hmin : hc.minute with
    | random =>
      dsimp only
      have := (hrand 0 60 (by norm_num)).2
      omega
    | specific m =>
      have hm := hv.2
      rw [hmin] at hm
      unfold specificMinute at hm
      exact hm

theorem getNextRunTime_ok {rand : Nat → Nat → Nat} (now : JSDate) {hcs : List HourConfig}
    (hne : hcs ≠ []) :
    ∃ slot, getNextSlotHour now hcs = .ok slot ∧
      getNextRunTime rand now hcs =
        .ok ⟨now, setHours (findNextValidDate now slot.hour hcs) slot.hour
          (resolveMinute rand hcs slot.hour)⟩ := by
  obtain ⟨slot, hok, _, _⟩ := getNextSlotHour_sound now hcs hne
  refine ⟨slot, hok, ?_⟩
  rw [getNextRunTime, hok]

/-! ## Bridging the `GenericFunctions.ts` shapes to the node shapes

The slot-search algorithm only reads `hour` and `dayOfWeek`, so
`GF.getNextSlotHourAux` agrees with `getNextSlotHour` after projecting each
`GHourConfig` to a node-shaped `HourConfig`. -/

theorem g_filter_map_hours (gl : List GF.GHourConfig) (p : Option DayOfWeek → Bool) :
    ((gl.map gToHourConfig).filter (fun hc => p hc.dayOfWeek)).map (fun hc => hc.hour) =
      (gl.filter (fun g => p g.dayOfWeek)).map (fun g => g.hour) := by
  induction gl with
  | nil => rfl
  | cons g rest ih =>
    show ((gToHourConfig g :: rest.map gToHourConfig).filter
        (fun hc => p hc.dayOfWeek)).map (fun hc => hc.hour) = _
    by_cases hp : p g.dayOfWeek
    · rw [List.filter_cons_of_pos (by simpa [gToHourConfig] using hp),
        List.filter_cons_of_pos (by simpa using hp)]
      rw [List.map_cons, List.map_cons, ih]
      rfl
    · rw [List.filter_cons_of_neg (by simpa [gToHourConfig] using hp),
        List.filter_cons_of_neg (by simpa using hp)]
      exact ih

theorem g_map_hours (gl : List GF.GHourConfig) :
    (gl.map gToHourConfig).map (fun hc => hc.hour) = gl.map (fun g => g.hour) := by
  induction gl with
  | nil => rfl
  | cons g rest ih =>
    show (gToHourConfig g).hour :: (rest.map gToHourConfig).map (fun hc => hc.hour) = _
    rw [ih]
    rfl

theorem findFutureSlotG_eq (now : JSDate) (gl : List GF.GHourConfig) :
    ∀ days, GF.findFutureSlotG now gl days = findFutureSlot now (gl.map gToHourConfig) days := by
  intro days
  induction days with
  | nil => rfl
  | cons k rest ih =>
    show (match sortHours ((gl.filter
            (fun g : GF.GHourConfig => matchesDay (addDays k now) g.dayOfWeek)).map
            (fun g : GF.GHourConfig => g.hour)) with
          | [] => GF.findFutureSlotG now gl rest
          | hour :: _ => some ⟨hour, k == 1⟩) = _
    rw [findFutureSlot, ← g_filter_map_hours gl (fun dow => matchesDay (addDays k now) dow), ih]

theorem getNextSlotHourAux_eq (now : JSDate) (gl : List GF.GHourConfig) :
    GF.getNextSlotHourAux now gl = getNextSlotHour now (gl.map gToHourConfig) := by
  show (match (sortHours ((gl.filter (fun g : GF.GHourConfig => matchesDay now g.dayOfWeek)).map
          (fun g : GF.GHourConfig => g.hour))).find? (fun hour => getHours now < hour) with
        | some hour => Except.ok (⟨hour, false⟩ : NextSlotResult)
        | none =>
          match GF.findFutureSlotG now gl daysAheadRange with
          | some r => Except.ok r
          | none =>
            match sortHours (gl.map (fun g : GF.GHourConfig => g.hour)) with
            | allHoursHead :: _ => Except.ok (⟨allHoursHead, true⟩ : NextSlotResult)
            | [] => Except.error "No valid time slots configured") = _
  rw [getNextSlotHour, ← g_filter_map_hours gl (fun dow => matchesDay now dow),
    findFutureSlotG_eq, ← g_map_hours]

theorem legacyConfigs_map_hours (fixedHours : List Nat) :
    (GF.legacyConfigs fixedHours).map (fun g : GF.GHourConfig => g.hour) = fixedHours := by
  induction fixedHours with
  | nil => rfl
  | cons h rest ih =>
    show h :: (GF.legacyConfigs rest).map (fun g : GF.GHourConfig => g.hour) = h :: rest
    rw [ih]

theorem GF_getNextSlotHour_hour_le {now : JSDate} {config : GF.TimetableConfig}
    {slot : NextSlotResult} (hval : ValidTimetableConfig config)
    (h : GF.getNextSlotHour now config = .ok slot) : slot.hour ≤ 23 := by
  rw [GF.getNextSlotHour] at h
  cases hcfg : config.hourConfigs with
  | some hcs =>
    rw [hcfg] at h
    have h2 : GF.getNextSlotHourAux now hcs = .ok slot := by
      cases hfx : config.fixedHours with
      | none => rw [hfx] at h; exact h
      | some fh => rw [hfx] at h; exact h
    rw [getNextSlotHourAux_eq] at h2
    have hmem := getNextSlotHour_hour_mem h2
    rw [g_map_hours] at hmem
    obtain ⟨g, hg, hh⟩ := List.mem_map.mp hmem
    have hv := hval.1 g (by rw [hcfg]; exact hg)
    omega
  | none =>
    rw [hcfg] at h
    cases hfx : config.fixedHours with
    | some fh =>
      rw [hfx] at h
      have h2 : GF.getNextSlotHourAux now (GF.legacyConfigs fh) = .ok slot := h
      rw [getNextSlotHourAux_eq] at h2
      have hmem := getNextSlotHour_hour_mem h2
      rw [g_map_hours, legacyConfigs_map_hours] at hmem
      exact hval.2.1 slot.hour (by rw [hfx]; exact hmem)
    | none =>
      rw [hfx] at h
      have h2 : GF.getNextSlotHourAux now [] = .ok slot := h
      rw [getNextSlotHourAux_eq] at h2
      rw [show ([] : List GF.GHourConfig).map gToHourConfig = [] from rfl,
        getNextSlotHour_nil] at h2
      exact absurd h2 (by simp)

theorem GF_resolveMinute_le {rand : Nat → Nat → Nat} (hrand : RandBounded rand)
    {config : GF.TimetableConfig} (hval : ValidTimetableConfig config) (hour : Nat) :
    GF.resolveMinute rand config hour ≤ 59 := by
  rw [GF.resolveMinute]
  cases hcfg : config.hourConfigs with
  | some hcs =>
    dsimp only
    cases hf : hcs.find? (fun hc => hc.hour == hour) with
    | none => norm_num
    | some hc =>
      dsimp only
      cases hmode : hc.minuteMode with
      | specific =>
        dsimp only
        have hv := hval.1 hc (by rw [hcfg]; exact List.mem_of_find?_eq_some hf)
        exact hv.2
      | random =>
        dsimp only
        have := (hrand 0 60 (by norm_num)).2
        omega
  | none =>
    dsimp only
    by_cases hrm : config.randomizeMinutes
    · rw [if_pos hrm]
      have hlt : config.minMinute.getD 0 < config.maxMinute.getD 59 + 1 := by
        have := hval.2.2.1
        omega
      have := (hrand (config.minMinute.getD 0) (config.maxMinute.getD 59 + 1) hlt).2
      have hub := hval.2.2.2
      omega
    · rw [if_neg hrm]
      norm_num

theorem matching_length_pos_iff (now : JSDate) (hcs : List HourConfig) :
    0 < (hcs.filter
        (fun hc => hc.hour == getHours now && matchesDay now hc.dayOfWeek)).length ↔
      ∃ hc ∈ hcs, hc.hour = getHours now ∧ matchesDay now hc.dayOfWeek = true := by
  rw [List.length_pos_iff_exists_mem]
  constructor
  · rintro ⟨hc, hmem⟩
    have h := List.mem_filter.mp hmem
    have h2 := h.2
    rw [Bool.and_eq_true, beq_iff_eq] at h2
    exact ⟨hc, h.1, h2.1, h2.2⟩
  · rintro ⟨hc, hmem, h1, h2⟩
    exact ⟨hc, List.mem_filter.mpr ⟨hmem, by simp [h1, h2]⟩⟩

theorem shouldTriggerAtTime_eq_specShouldTrigger (now : JSDate) (last : Option Nat)
    (hcs : List HourConfig) :
    shouldTriggerAtTime now last hcs = specShouldTrigger now last hcs := by
  unfold shouldTriggerAtTime specShouldTrigger
  by_cases hex : ∃ hc ∈ hcs, hc.hour = getHours now ∧ matchesDay now hc.dayOfWeek = true
  · have hlen : 0 < (hcs.filter
        (fun hc => hc.hour == getHours now && matchesDay now hc.dayOfWeek)).length :=
      (matching_length_pos_iff now hcs).mpr hex
    have hbool : decide (0 < (hcs.filter
        (fun hc => hc.hour == getHours now && matchesDay now hc.dayOfWeek)).length) = true :=
      decide_eq_true hlen
    simp only [gt_iff_lt, hbool, Bool.not_true, Bool.false_eq_true, if_false,
      if_neg (not_not_intro hex)]
    cases last with
    | none => simp
    | some l =>
      by_cases hl : l = 0
      · subst hl
        simp
      · simp only [hl, beq_iff_eq, if_neg hl]
        have hne : ¬ (some l = none ∨ some l = some 0) := by
          simp [hl]
        rw [if_neg hne]
        by_cases hc1 : ((now.t : Int) - (l : Int) < oneHourMs ∧ getHours ⟨l⟩ = getHours now)
        · rw [if_pos hc1]
          have : (decide ((now.t : Int) - (l : Int) < oneHourMs) &&
              (getHours ⟨l⟩ == getHours now)) = true := by
            simp [hc1.1, hc1.2]
          simp [this]
        · rw [if_neg hc1]
          have : (decide ((now.t : Int) - (l : Int) < oneHourMs) &&
              (getHours ⟨l⟩ == getHours now)) = false := by
            rw [Bool.and_eq_false_iff]
            by_cases h1 : (now.t : Int) - (l : Int) < oneHourMs
            · right
              refine beq_eq_false_iff_ne.mpr ?_
              intro h2
              exact hc1 ⟨h1, h2⟩
            · left
              simpa using h1
          simp [this]
  · have hlen : ¬ 0 < (hcs.filter
        (fun hc => hc.hour == getHours now && matchesDay now hc.dayOfWeek)).length := by
      intro h
      exact hex ((matching_length_pos_iff now hcs).mp h)
    simp [hlen, hex]

/-! ## Claims

One theorem per claim of the specification review, with counterexamples and
witnesses where required.  `constRand` and `hiRand` are concrete in-range
random generators used by the witnesses. -/

theorem constRand_bounded : RandBounded constRand :=
  fun lo _ h => ⟨Nat.le_refl lo, h⟩

theorem hiRand_bounded : RandBounded hiRand := by
  intro lo hi h
  unfold hiRand
  omega

/-- C1 (counterexample): the claim's "isTomorrow is false if and only if a
same-day later hour exists" fails.  At `now` = Monday 1970-01-05 10:00 with
the single slot `{hour: 14, dayOfWeek: FRI}`, `getNextSlotHour` returns
`{hour: 14, isTomorrow: false}` (Friday is four days ahead), yet no slot
matching Monday has an hour after 10 — so `isTomorrow = false` holds while
the right-hand side of the claimed "iff" is false. -/
theorem c1_counterexample :
    getNextSlotHour ⟨381600000⟩ [⟨14, .random, some .FRI⟩] = .ok ⟨14, false⟩ ∧
    ¬ ∃ hc ∈ ([⟨14, .random, some .FRI⟩] : List HourConfig),
        matchesDay ⟨381600000⟩ hc.dayOfWeek = true ∧ getHours ⟨381600000⟩ < hc.hour := by
  decide

/-- C1 (amended): for every `now` and non-empty slot collection,
`getNextSlotHour` succeeds and returns an hour present among the configured
slots after day-filtering (for the day — today or one of the next seven —
on which the slot was found), and `isTomorrow` is false IF some slot matching
now's weekday has an hour strictly greater than now's hour.  (The converse
direction of the claimed "iff" is dropped: for matches 2-7 days out,
`isTomorrow` is also false — the spec's own documented quirk.) -/
theorem c1_findNextSlot_sound (now : JSDate) (hcs : List HourConfig) (hne : hcs ≠ []) :
    ∃ r, getNextSlotHour now hcs = .ok r ∧
      (∃ k, (k = 0 ∨ k ∈ daysAheadRange) ∧
        r.hour ∈ (hcs.filter (fun hc => matchesDay (addDays k now) hc.dayOfWeek)).map
          (fun hc => hc.hour)) ∧
      ((∃ hc ∈ hcs, matchesDay now hc.dayOfWeek = true ∧ getHours now < hc.hour) →
        r.isTomorrow = false) :=
  getNextSlotHour_sound now hcs hne

theorem c1_findNextSlot_sound_witness :
    ([⟨12, MinuteSpec.random, some DayOfWeek.ALL⟩] : List HourConfig) ≠ [] ∧
    ∃ r, getNextSlotHour ⟨36000000⟩ [⟨12, MinuteSpec.random, some DayOfWeek.ALL⟩] = .ok r ∧
      (∃ k, (k = 0 ∨ k ∈ daysAheadRange) ∧
        r.hour ∈ (([⟨12, MinuteSpec.random, some DayOfWeek.ALL⟩] : List HourConfig).filter
          (fun hc => matchesDay (addDays k ⟨36000000⟩) hc.dayOfWeek)).map
          (fun hc => hc.hour)) ∧
      ((∃ hc ∈ ([⟨12, MinuteSpec.random, some DayOfWeek.ALL⟩] : List HourConfig),
          matchesDay ⟨36000000⟩ hc.dayOfWeek = true ∧ getHours ⟨36000000⟩ < hc.hour) →
        r.isTomorrow = false) :=
  ⟨by decide, c1_findNextSlot_sound ⟨36000000⟩ _ (by decide)⟩

/-- C2: `shouldTriggerAtTime` implements exactly the spec's four rules:
false when no slot matches now's hour and weekday; true when a slot matches
and no prior fire is recorded (the code encodes "never fired" as `undefined`
or `0`); false when a slot matches, elapsed time since the last fire is below
one hour, and the last fire's clock hour equals now's hour; true in all
remaining cases (including a fire in a different clock hour only minutes
ago).  Stated as equality with `specShouldTrigger`, the word-for-word
rendering of spec section 4.2. -/
theorem c2_triggerGate_rules (now : JSDate) (last : Option Nat) (hcs : List HourConfig) :
    shouldTriggerAtTime now last hcs = specShouldTrigger now last hcs :=
  shouldTriggerAtTime_eq_specShouldTrigger now last hcs

/-- C3: `getNextSlotHour` computes its result by exactly the algorithm the
spec describes — smallest same-day hour strictly greater than now's hour with
`isTomorrow = false`; otherwise scan `daysAhead = 1..7` and return the
smallest hour of the first future day with matching slots, with
`isTomorrow = (daysAhead == 1)`; otherwise the globally smallest configured
hour with `isTomorrow = true`.  Stated as equality with `specNextSlot`, the
word-for-word rendering of the spec's algorithm. -/
theorem c3_findNextSlot_algorithm (now : JSDate) (hcs : List HourConfig) :
    getNextSlotHour now hcs = specNextSlot now hcs :=
  getNextSlotHour_eq_specNextSlot now hcs

/-- C4: on a tick where the gate admits the fire, the tick handler stores the
wall-clock capture time (`Date.now()`) into `lastTriggerTime` — in both the
success and the failure branch of the output construction, so the update
precedes any emission — and emits exactly one record: the regular record when
`getNextRunTime` succeeds, and the fallback record carrying the explanatory
`error` field when it fails.  The fire is never dropped. -/
theorem c4_fire_state_and_emission (rand : Nat → Nat → Nat) (hcs : List HourConfig)
    (st : StaticData) (decNow capNow outNow : Nat)
    (htrig : shouldTriggerAtTime ⟨decNow⟩ st.lastTriggerTime hcs = true) :
    (executeTriggerTick rand hcs st decNow capNow outNow).staticData.lastTriggerTime =
      some capNow ∧
    (executeTriggerTick rand hcs st decNow capNow outNow).emissions.length = 1 ∧
    (executeTriggerTick rand hcs st decNow capNow outNow).emissions =
      (match getNextRunTime rand ⟨outNow⟩ hcs with
       | .ok nr => [Emission.normal outNow nr.candidate.t]
       | .error _ => [Emission.fallback fallbackErrorField]) := by
  cases hnr : getNextRunTime rand ⟨outNow⟩ hcs with
  | ok nr =>
    refine ⟨?_, ?_, ?_⟩ <;> simp [executeTriggerTick, htrig, hnr]
  | error e =>
    refine ⟨?_, ?_, ?_⟩ <;> simp [executeTriggerTick, htrig, hnr]

theorem c4_fire_state_and_emission_witness :
    shouldTriggerAtTime ⟨36300000⟩ (⟨none⟩ : StaticData).lastTriggerTime
      [⟨10, MinuteSpec.specific 30, some DayOfWeek.ALL⟩] = true ∧
    ((executeTriggerTick constRand [⟨10, MinuteSpec.specific 30, some DayOfWeek.ALL⟩]
        ⟨none⟩ 36300000 36300001 36300002).staticData.lastTriggerTime = some 36300001 ∧
     (executeTriggerTick constRand [⟨10, MinuteSpec.specific 30, some DayOfWeek.ALL⟩]
        ⟨none⟩ 36300000 36300001 36300002).emissions.length = 1 ∧
     (executeTriggerTick constRand [⟨10, MinuteSpec.specific 30, some DayOfWeek.ALL⟩]
        ⟨none⟩ 36300000 36300001 36300002).emissions =
       (match getNextRunTime constRand ⟨36300002⟩
           [⟨10, MinuteSpec.specific 30, some DayOfWeek.ALL⟩] with
        | .ok nr => [Emission.normal 36300002 nr.candidate.t]
        | .error _ => [Emission.fallback fallbackErrorField])) :=
  ⟨by decide, c4_fire_state_and_emission constRand _ ⟨none⟩ 36300000 36300001 36300002
    (by decide)⟩

/-- C5: `getNextSlotHour` fails on the empty slot collection with the
configuration error message `'No valid time slots configured'`, and never
fails on a non-empty collection (`isOk` is exactly non-emptiness). -/
theorem c5_empty_fails_nonempty_succeeds (now : JSDate) (hcs : List HourConfig) :
    getNextSlotHour now [] = Except.error "No valid time slots configured" ∧
    (getNextSlotHour now hcs).isOk = !hcs.isEmpty :=
  ⟨getNextSlotHour_nil now, getNextSlotHour_isOk now hcs⟩

/-- C6: in `GF.getNextRunTime` the resolved minute is a whole number of
minutes in `[0, 59]` realised exactly on the candidate instant (seconds and
milliseconds zero); the candidate's minute equals the code's minute
resolution for the chosen slot — `randomInt(0, 60)` in random mode, the
configured integer in specific mode, `0` without a match — and in legacy
configurations with `randomizeMinutes` and a configured sub-range
`[minMinute, maxMinute]` the draw never falls outside that sub-range.
(Uniformity of the distribution is outside the model; the generator is an
arbitrary in-range draw, hypothesis `RandBounded`.) -/
theorem c6_minute_resolution (rand : Nat → Nat → Nat) (config : GF.TimetableConfig)
    (now : JSDate) (r : NextRunTime)
    (hrand : RandBounded rand) (hval : ValidTimetableConfig config)
    (hok : GF.getNextRunTime rand now config = .ok r) :
    r.candidate.t % msPerMinute = 0 ∧
    getMinutes r.candidate ≤ 59 ∧
    (match GF.getNextSlotHour now config with
     | .ok slot => getMinutes r.candidate = GF.resolveMinute rand config slot.hour
     | .error _ => True) ∧
    (config.hourConfigs = none → config.randomizeMinutes = true →
      config.minMinute.getD 0 ≤ getMinutes r.candidate ∧
      getMinutes r.candidate ≤ config.maxMinute.getD 59) := by
  cases hslot : GF.getNextSlotHour now config with
  | error e =>
    rw [GF.getNextRunTime, hslot] at hok
    simp at hok
  | ok slot =>
    have hexp : GF.getNextRunTime rand now config =
        .ok ⟨now, setHours (GF.findNextValidDate now slot.hour config) slot.hour
          (GF.resolveMinute rand config slot.hour)⟩ := by
      rw [GF.getNextRunTime, hslot]
    rw [hexp] at hok
    have hr : r = ⟨now, setHours (GF.findNextValidDate now slot.hour config) slot.hour
        (GF.resolveMinute rand config slot.hour)⟩ := (Except.ok.inj hok).symm
    have hmle : GF.resolveMinute rand config slot.hour ≤ 59 :=
      GF_resolveMinute_le hrand hval slot.hour
    have hmins : getMinutes r.candidate = GF.resolveMinute rand config slot.hour := by
      rw [hr]
      exact getMinutes_setHours _ hmle
    refine ⟨?_, ?_, ?_, ?_⟩
    · rw [hr]
      exact setHours_mod_minute _ _ _
    · rw [hmins]
      exact hmle
    · dsimp only
      exact hmins
    · intro hnone hrm
      rw [hmins, GF.resolveMinute, hnone]
      dsimp only
      rw [if_pos hrm]
      have hlt : config.minMinute.getD 0 < config.maxMinute.getD 59 + 1 := by
        have := hval.2.2.1
        omega
      have hb := hrand (config.minMinute.getD 0) (config.maxMinute.getD 59 + 1) hlt
      omega

theorem c6_minute_resolution_witness :
    RandBounded constRand ∧
    ValidTimetableConfig w6config ∧
    GF.getNextRunTime constRand ⟨36000000⟩ w6config = .ok ⟨⟨36000000⟩, ⟨45000000⟩⟩ ∧
    ((⟨⟨36000000⟩, ⟨45000000⟩⟩ : NextRunTime).candidate.t % msPerMinute = 0 ∧
     getMinutes (⟨⟨36000000⟩, ⟨45000000⟩⟩ : NextRunTime).candidate ≤ 59 ∧
     (match GF.getNextSlotHour ⟨36000000⟩ w6config with
      | .ok slot => getMinutes (⟨⟨36000000⟩, ⟨45000000⟩⟩ : NextRunTime).candidate =
          GF.resolveMinute constRand w6config slot.hour
      | .error _ => True) ∧
     (w6config.hourConfigs = none → w6config.randomizeMinutes = true →
       w6config.minMinute.getD 0 ≤
         getMinutes (⟨⟨36000000⟩, ⟨45000000⟩⟩ : NextRunTime).candidate ∧
       getMinutes (⟨⟨36000000⟩, ⟨45000000⟩⟩ : NextRunTime).candidate ≤
         w6config.maxMinute.getD 59)) :=
  ⟨constRand_bounded, by decide, by decide,
    c6_minute_resolution constRand w6config ⟨36000000⟩ ⟨⟨36000000⟩, ⟨45000000⟩⟩
      constRand_bounded (by decide) (by decide)⟩

/-- C7 (code bug): the trigger decision does NOT evaluate the hour in the
configured IANA timezone.  `shouldTriggerNow` builds
`moment.tz(timezone).toDate()`, which discards the zone: the resulting `Date`
is read with the host's clock, so the decision is independent of the
configured offset (first conjunct), and at the concrete instant
1970-01-01T13:00Z with host offset 0 and configured offset +01:00 the
configured-zone hour is 14 and a `{hour: 14, ALL}` slot with no prior fire
should be admitted per the claim, yet the code compares the host hour 13 and
returns false. -/
theorem c7_timezone_ignored (hostOff cfg1 cfg2 u : Nat) (last : Option Nat)
    (hcs : List HourConfig) :
    shouldTriggerNow hostOff cfg1 u last hcs = shouldTriggerNow hostOff cfg2 u last hcs ∧
    (shouldTriggerNow 0 msPerHour 46800000 none [⟨14, .random, some .ALL⟩] = false ∧
     hourInZone msPerHour 46800000 = 14 ∧
     getHours ⟨46800000 + 0⟩ = 13) :=
  ⟨rfl, by decide, by decide, by decide⟩

/-- C8: `GF.getNextRunTime` is deterministic up to the random minute draw —
two calls with identical `now` and configuration yield the same reference
date, candidates on the same calendar day with the same hour, and their
minutes can differ only when the chosen slot's minute mode is random (or, in
legacy mode, `randomizeMinutes` is set). -/
theorem c8_idempotent_up_to_minute (r1 r2 : Nat → Nat → Nat)
    (config : GF.TimetableConfig) (now : JSDate) (c1 c2 : NextRunTime)
    (h1 : RandBounded r1) (h2 : RandBounded r2) (hval : ValidTimetableConfig config)
    (hok1 : GF.getNextRunTime r1 now config = .ok c1)
    (hok2 : GF.getNextRunTime r2 now config = .ok c2) :
    c1.date = c2.date ∧
    localDay c1.candidate = localDay c2.candidate ∧
    getHours c1.candidate = getHours c2.candidate ∧
    (getMinutes c1.candidate ≠ getMinutes c2.candidate →
      (match config.hourConfigs with
       | some hcs =>
         (match GF.getNextSlotHour now config with
          | .ok slot =>
            (match hcs.find? (fun x => x.hour == slot.hour) with
             | some hc => hc.minuteMode = GF.MinuteMode.random
             | none => False)
          | .error _ => False)
       | none => config.randomizeMinutes = true)) := by
  cases hslot : GF.getNextSlotHour now config with
  | error e =>
    rw [GF.getNextRunTime, hslot] at hok1
    simp at hok1
  | ok slot =>
    have hexp1 : GF.getNextRunTime r1 now config =
        .ok ⟨now, setHours (GF.findNextValidDate now slot.hour config) slot.hour
          (GF.resolveMinute r1 config slot.hour)⟩ := by
      rw [GF.getNextRunTime, hslot]
    have hexp2 : GF.getNextRunTime r2 now config =
        .ok ⟨now, setHours (GF.findNextValidDate now slot.hour config) slot.hour
          (GF.resolveMinute r2 config slot.hour)⟩ := by
      rw [GF.getNextRunTime, hslot]
    rw [hexp1] at hok1
    rw [hexp2] at hok2
    have hc1 : c1 = ⟨now, setHours (GF.findNextValidDate now slot.hour config) slot.hour
        (GF.resolveMinute r1 config slot.hour)⟩ := (Except.ok.inj hok1).symm
    have hc2 : c2 = ⟨now, setHours (GF.findNextValidDate now slot.hour config) slot.hour
        (GF.resolveMinute r2 config slot.hour)⟩ := (Except.ok.inj hok2).symm
    have hh : slot.hour ≤ 23 := GF_getNextSlotHour_hour_le hval hslot
    have hm1 : GF.resolveMinute r1 config slot.hour ≤ 59 := GF_resolveMinute_le h1 hval _
    have hm2 : GF.resolveMinute r2 config slot.hour ≤ 59 := GF_resolveMinute_le h2 hval _
    refine ⟨?_, ?_, ?_, ?_⟩
    · rw [hc1, hc2]
    · rw [hc1, hc2]
      show localDay (setHours _ _ _) = localDay (setHours _ _ _)
      rw [localDay_setHours _ hh hm1, localDay_setHours _ hh hm2]
    · rw [hc1, hc2]
      show getHours (setHours _ _ _) = getHours (setHours _ _ _)
      rw [getHours_setHours _ hh hm1, getHours_setHours _ hh hm2]
    · intro hnem
      have hg1 : getMinutes c1.candidate = GF.resolveMinute r1 config slot.hour := by
        rw [hc1]
        exact getMinutes_setHours _ hm1
      have hg2 : getMinutes c2.candidate = GF.resolveMinute r2 config slot.hour := by
        rw [hc2]
        exact getMinutes_setHours _ hm2
      rw [hg1, hg2] at hnem
      cases hcfg : config.hourConfigs with
      | some hcs =>
        dsimp only
        rw [GF.resolveMinute, GF.resolveMinute, hcfg] at hnem
        dsimp only at hnem
        cases hfind : hcs.find? (fun x => x.hour == slot.hour) with
        | none =>
          rw [hfind] at hnem
          exact hnem rfl
        | some hc =>
          rw [hfind] at hnem
          dsimp only
          cases hmode : hc.minuteMode with
          | specific =>
            exfalso
            dsimp only at hnem
            rw [hmode] at hnem
            exact hnem rfl
          | random => rfl
      | none =>
        dsimp only
        rw [GF.resolveMinute, GF.resolveMinute, hcfg] at hnem
        dsimp only at hnem
        by_cases hrm : config.randomizeMinutes
        · exact hrm
        · rw [if_neg hrm, if_neg hrm] at hnem
          exact absurd rfl hnem

theorem c8_idempotent_up_to_minute_witness :
    RandBounded constRand ∧ RandBounded hiRand ∧
    ValidTimetableConfig w8config ∧
    GF.getNextRunTime constRand ⟨36000000⟩ w8config = .ok ⟨⟨36000000⟩, ⟨43200000⟩⟩ ∧
    GF.getNextRunTime hiRand ⟨36000000⟩ w8config = .ok ⟨⟨36000000⟩, ⟨46740000⟩⟩ ∧
    ((⟨⟨36000000⟩, ⟨43200000⟩⟩ : NextRunTime).date =
        (⟨⟨36000000⟩, ⟨46740000⟩⟩ : NextRunTime).date ∧
     localDay (⟨⟨36000000⟩, ⟨43200000⟩⟩ : NextRunTime).candidate =
        localDay (⟨⟨36000000⟩, ⟨46740000⟩⟩ : NextRunTime).candidate ∧
     getHours (⟨⟨36000000⟩, ⟨43200000⟩⟩ : NextRunTime).candidate =
        getHours (⟨⟨36000000⟩, ⟨46740000⟩⟩ : NextRunTime).candidate ∧
     (getMinutes (⟨⟨36000000⟩, ⟨43200000⟩⟩ : NextRunTime).candidate ≠
        getMinutes (⟨⟨36000000⟩, ⟨46740000⟩⟩ : NextRunTime).candidate →
       (match w8config.hourConfigs with
        | some hcs =>
          (match GF.getNextSlotHour ⟨36000000⟩ w8config with
           | .ok slot =>
             (match hcs.find? (fun x => x.hour == slot.hour) with
              | some hc => hc.minuteMode = GF.MinuteMode.random
              | none => False)
           | .error _ => False)
        | none => w8config.randomizeMinutes = true))) :=
  ⟨constRand_bounded, hiRand_bounded, by decide, by decide, by decide,
    c8_idempotent_up_to_minute constRand hiRand w8config ⟨36000000⟩
      ⟨⟨36000000⟩, ⟨43200000⟩⟩ ⟨⟨36000000⟩, ⟨46740000⟩⟩
      constRand_bounded hiRand_bounded (by decide) (by decide) (by decide)⟩

/-- C9: on a tick where the gate refuses the fire, the tick handler leaves
the static data untouched, emits nothing, and the diagnostic
`getNextRunTime` result is only turned into a log line — a failure produces
the "Error computing next run time for skip" log and nothing else, so it
never propagates out of the tick handler (the handler is a total function). -/
theorem c9_skip_leaves_state (rand : Nat → Nat → Nat) (hcs : List HourConfig)
    (st : StaticData) (decNow capNow outNow : Nat)
    (hskip : shouldTriggerAtTime ⟨decNow⟩ st.lastTriggerTime hcs = false) :
    (executeTriggerTick rand hcs st decNow capNow outNow).staticData = st ∧
    (executeTriggerTick rand hcs st decNow capNow outNow).emissions = [] ∧
    (executeTriggerTick rand hcs st decNow capNow outNow).logs =
      (match getNextRunTime rand ⟨decNow⟩ hcs with
       | .ok _ => ["Not triggering."]
       | .error e => [skipErrorLog e]) := by
  cases hnr : getNextRunTime rand ⟨decNow⟩ hcs with
  | ok nr =>
    refine ⟨?_, ?_, ?_⟩ <;> simp [executeTriggerTick, hskip, hnr]
  | error e =>
    refine ⟨?_, ?_, ?_⟩ <;> simp [executeTriggerTick, hskip, hnr]

theorem c9_skip_leaves_state_witness :
    shouldTriggerAtTime ⟨36300000⟩ (⟨some 5⟩ : StaticData).lastTriggerTime
      ([] : List HourConfig) = false ∧
    ((executeTriggerTick constRand [] ⟨some 5⟩ 36300000 36300001 36300002).staticData =
        ⟨some 5⟩ ∧
     (executeTriggerTick constRand [] ⟨some 5⟩ 36300000 36300001 36300002).emissions = [] ∧
     (executeTriggerTick constRand [] ⟨some 5⟩ 36300000 36300001 36300002).logs =
       (match getNextRunTime constRand ⟨36300000⟩ ([] : List HourConfig) with
        | .ok _ => ["Not triggering."]
        | .error e => [skipErrorLog e])) :=
  ⟨by decide, c9_skip_leaves_state constRand [] ⟨some 5⟩ 36300000 36300001 36300002
    (by decide)⟩

/-- C10: every candidate produced by `getNextRunTime` is strictly later than
`now`: it lies either on the same local calendar day at an hour strictly
greater than now's hour, or on a strictly later calendar day; and its seconds
and milliseconds are zero (the instant is a whole number of minutes). -/
theorem c10_candidate_strictly_future (rand : Nat → Nat → Nat) (now : JSDate)
    (hcs : List HourConfig) (r : NextRunTime) (hrand : RandBounded rand)
    (hval : ValidHourConfigs hcs) (hok : getNextRunTime rand now hcs = .ok r) :
    ((localDay r.candidate = localDay now ∧ getHours now < getHours r.candidate) ∨
      localDay now < localDay r.candidate) ∧
    now.t < r.candidate.t ∧
    r.candidate.t % msPerMinute = 0 := by
  cases hslot : getNextSlotHour now hcs with
  | error e =>
    rw [getNextRunTime, hslot] at hok
    simp at hok
  | ok slot =>
    have hexp : getNextRunTime rand now hcs =
        .ok ⟨now, setHours (findNextValidDate now slot.hour hcs) slot.hour
          (resolveMinute rand hcs slot.hour)⟩ := by
      rw [getNextRunTime, hslot]
    rw [hexp] at hok
    have hr : r = ⟨now, setHours (findNextValidDate now slot.hour hcs) slot.hour
        (resolveMinute rand hcs slot.hour)⟩ := (Except.ok.inj hok).symm
    have hh : slot.hour ≤ 23 := by
      obtain ⟨hc, hmemc, hhc⟩ := List.mem_map.mp (getNextSlotHour_hour_mem hslot)
      have := hval hc hmemc
      omega
    have hm : resolveMinute rand hcs slot.hour ≤ 59 := resolveMinute_le hrand hval slot.hour
    subst hr
    rcases findNextValidDate_cases now slot.hour hcs with ⟨heq, hlt⟩ | ⟨k, hk1, heq⟩
    · rw [heq]
      refine ⟨Or.inl ⟨localDay_setHours now hh hm, ?_⟩,
        t_lt_setHours_same_day now hlt _, setHours_mod_minute now slot.hour _⟩
      rw [getHours_setHours now hh hm]
      exact hlt
    · rw [heq]
      refine ⟨Or.inr ?_, t_lt_setHours_future now hk1 _ _, setHours_mod_minute _ _ _⟩
      rw [localDay_setHours _ hh hm, localDay_addDays]
      omega

theorem c10_candidate_strictly_future_witness :
    RandBounded constRand ∧
    ValidHourConfigs w10configs ∧
    getNextRunTime constRand ⟨36000000⟩ w10configs = .ok ⟨⟨36000000⟩, ⟨44100000⟩⟩ ∧
    (((localDay (⟨⟨36000000⟩, ⟨44100000⟩⟩ : NextRunTime).candidate = localDay ⟨36000000⟩ ∧
        getHours ⟨36000000⟩ < getHours (⟨⟨36000000⟩, ⟨44100000⟩⟩ : NextRunTime).candidate) ∨
      localDay (⟨36000000⟩ : JSDate) <
        localDay (⟨⟨36000000⟩, ⟨44100000⟩⟩ : NextRunTime).candidate) ∧
     (⟨36000000⟩ : JSDate).t < (⟨⟨36000000⟩, ⟨44100000⟩⟩ : NextRunTime).candidate.t ∧
     (⟨⟨36000000⟩, ⟨44100000⟩⟩ : NextRunTime).candidate.t % msPerMinute = 0) :=
  ⟨constRand_bounded, by decide, by decide,
    c10_candidate_strictly_future constRand ⟨36000000⟩ w10configs
      ⟨⟨36000000⟩, ⟨44100000⟩⟩ constRand_bounded (by decide) (by decide)⟩
